import Mathlib

/-!
Verification of the crm_utils ingestion scripts.

This file gives a shallow embedding of the client, estimate and invoice
ingestion logic of the repository and proves the stated reconciliation,
deduplication and cleaning properties against it.

Modelled source functions:
- scripts/ingest.py: clean_string, clean_dataframe, ingest_clients_2, ingest_est_inv
- scripts/ingest_data.py: clean_df_cols, ingest_estimate_invoice, ingest_clients_with_estimates
- scripts/all_ingestor.py: the client-export deduplication of the main block
- scripts/transfrom.py: update_client_join_date

DataFrames are lists of records whose cells are Option-valued: a pandas
missing value (NaN) is none, a present string is some. Amount columns are
modelled over Int, date columns over Nat day codes.
-/

namespace Crm

/-- The whitespace characters of Python str.strip, as used by pandas Series.str.strip. -/
def isPySpace (c : Char) : Bool :=
  c == ' ' || c == '\t' || c == '\n' || c == '\r' || c == '\x0b' || c == '\x0c'

/-- Python str.strip: remove leading and trailing whitespace. -/
def pyStrip (s : String) : String :=
  ⟨((s.data.dropWhile isPySpace).reverse.dropWhile isPySpace).reverse⟩

/-- clean_string of scripts/ingest.py: on a string cell, value.strip() followed by
removal of every double-quote character; missing cells pass through. -/
def clean_string (v : Option String) : Option String :=
  v.map (fun s => ⟨(pyStrip s).data.filter (fun c => c != '\"')⟩)

/-- The disallowed characters of clean_df_cols in scripts/ingest_data.py:
null byte, newline, carriage return, tab, single quote, double quote,
backslash, percent, underscore, semicolon. -/
def isBadChar (c : Char) : Bool :=
  c == '\x00' || c == '\n' || c == '\r' || c == '\t' || c == '\'' ||
  c == '\"' || c == '\\' || c == '%' || c == '_' || c == ';'

/-- The regex replacement of clean_df_cols: each occurrence of a disallowed
character is replaced by a single space. -/
def replaceBadChars (s : String) : String :=
  ⟨s.data.map (fun c => if isBadChar c then ' ' else c)⟩

/-- The clean_df_cols cell transformation: replace the disallowed characters by
spaces, then strip leading and trailing whitespace. -/
def clean_df_val (s : String) : String :=
  pyStrip (replaceBadChars s)

/-- clean_df_cols on a nullable cell: the pandas .str accessor keeps missing
values missing. -/
def cleanCell (v : Option String) : Option String :=
  v.map clean_df_val

/-- pd.to_numeric with errors coerce: unparseable values become null.
Amounts are modelled over Int. -/
def pd_to_numeric (v : Option String) : Option Int :=
  v.bind String.toInt?

/-- pd.to_datetime with errors coerce, modelled as parsing an ISO yyyy-mm-dd
date into the day code yyyy * 10000 + mm * 100 + dd; failures become null. -/
def isoDate? (s : String) : Option Nat :=
  match s.splitOn "-" with
  | [y, m, d] =>
    match y.toNat?, m.toNat?, d.toNat? with
    | some yn, some mn, some dn =>
      if 1 ≤ mn ∧ mn ≤ 12 ∧ 1 ≤ dn ∧ dn ≤ 31 then some (yn * 10000 + mn * 100 + dn) else none
    | _, _, _ => none
  | _ => none

/-- pd.to_datetime on a nullable cell. -/
def pd_to_datetime (v : Option String) : Option Nat :=
  v.bind isoDate?

/-- The string slice x[:n]; clean_dataframe applies it when the value is longer
than the column maximum, and the slice equals the value otherwise. -/
def pyTruncate (n : Nat) (s : String) : String :=
  ⟨s.data.take n⟩

/-- drop_duplicates keeping the first occurrence per key, with an accumulator of
keys already seen; also models pandas Series.unique. -/
def dedupByAux {α : Type} (key : α → String) (seen : List String) : List α → List α
  | [] => []
  | x :: t =>
    if key x ∈ seen then dedupByAux key seen t
    else x :: dedupByAux key (key x :: seen) t

/-- drop_duplicates on a key, keeping the first occurrence. -/
def dedupBy {α : Type} (key : α → String) (l : List α) : List α :=
  dedupByAux key [] l

/-- pandas Series.unique: first-occurrence deduplication of a string column. -/
def uniqueStrings (l : List String) : List String :=
  dedupBy (fun s => s) l

/-- A raw estimates or invoices batch row after the column rename; the number
field stands for estimate_number or invoice_number. Cells are raw strings. -/
structure EstRow where
  number : Option String
  full_name : Option String
  subtotal : Option String
  tax : Option String
  total : Option String
  date_issued : Option String
  date_created : Option String
  payment_received_less_refunds : Option String
deriving DecidableEq, Repr

/-- Step 1 of clean_dataframe in scripts/ingest.py: clean_string mapped over
every object column of the frame. -/
def cleanStringRow (r : EstRow) : EstRow :=
  { number := clean_string r.number
    full_name := clean_string r.full_name
    subtotal := clean_string r.subtotal
    tax := clean_string r.tax
    total := clean_string r.total
    date_issued := clean_string r.date_issued
    date_created := clean_string r.date_created
    payment_received_less_refunds := clean_string r.payment_received_less_refunds }

/-- df.dropna on the required columns (the number column and full_name):
pandas drops rows with missing values there; an empty string is not missing. -/
def dropnaRequired (rows : List EstRow) : List EstRow :=
  rows.filter (fun r => r.number.isSome && r.full_name.isSome)

/-- A cleaned estimates or invoices row as persisted by clean_dataframe. -/
structure EstClean where
  number : Option Int
  full_name : Option String
  subtotal : Option Int
  tax : Option Int
  total : Option Int
  date_issued : Option Nat
  date_created : Option Nat
  payment_received_less_refunds : Option Int
  ingested_time : Nat
  source : String
deriving DecidableEq, Repr

/-- The column coercions of clean_dataframe for the estimates and invoices
tables: numeric and date coercions, full_name truncated to 42 characters,
ingested_time and source stamped. The payments column only exists for
invoices. -/
def transformEstRow (invoicesTable : Bool) (now : Nat) (r : EstRow) : EstClean :=
  { number := pd_to_numeric r.number
    full_name := r.full_name.map (pyTruncate 42)
    subtotal := pd_to_numeric r.subtotal
    tax := pd_to_numeric r.tax
    total := pd_to_numeric r.total
    date_issued := pd_to_datetime r.date_issued
    date_created := pd_to_datetime r.date_created
    payment_received_less_refunds :=
      if invoicesTable then pd_to_numeric r.payment_received_less_refunds else none
    ingested_time := now
    source := "joist" }

/-- The batch as it stands right before the referential check of
clean_dataframe: strings cleaned, rows with missing required fields dropped,
columns coerced and stamped. -/
def cleanedBatch (invoicesTable : Bool) (now : Nat) (rows : List EstRow) : List EstClean :=
  (dropnaRequired (rows.map cleanStringRow)).map (transformEstRow invoicesTable now)

/-- The unique full_name values of the batch that are absent from the persisted
clients table: the referential check of clean_dataframe. -/
def invalidNames (rows : List EstClean) (clientNames : List String) : List String :=
  uniqueStrings
    ((rows.filterMap (fun r => r.full_name)).filter (fun n => decide (n ∉ clientNames)))

/-- clean_dataframe of scripts/ingest.py for the estimates and invoices tables:
clean strings, drop rows with missing required fields, coerce columns, stamp
ingested_time and source, then raise on full_name values absent from the
clients table, carrying the offending names. -/
def clean_dataframe (invoicesTable : Bool) (rows : List EstRow) (clientNames : List String)
    (now : Nat) : Except (List String) (List EstClean) :=
  let out := cleanedBatch invoicesTable now rows
  let invalid := invalidNames out clientNames
  if invalid.isEmpty then Except.ok out else Except.error invalid

/-- The database state seen by the ingest.py pipeline: the full_name column of
clients plus the estimates and invoices tables. -/
structure IngestState where
  clients : List String
  estimates : List EstClean
  invoices : List EstClean
deriving DecidableEq, Repr

/-- ingest_est_inv of scripts/ingest.py for one CSV file: clean_dataframe, then
append the cleaned batch to the target table. The clients table is only read.
A raised error reaches the caller before any write. -/
def ingest_est_inv (invoicesTable : Bool) (rows : List EstRow) (s : IngestState)
    (now : Nat) : Except (List String) IngestState :=
  match clean_dataframe invoicesTable rows s.clients now with
  | Except.error e => Except.error e
  | Except.ok out =>
    Except.ok { s with
      estimates := if invoicesTable then s.estimates else s.estimates ++ out
      invoices := if invoicesTable then s.invoices ++ out else s.invoices }

/-- The database state after the ingest_est_inv call; a raised exception leaves
every table unchanged. -/
def stateAfter (invoicesTable : Bool) (rows : List EstRow) (s : IngestState)
    (now : Nat) : IngestState :=
  match ingest_est_inv invoicesTable rows s now with
  | Except.error _ => s
  | Except.ok t => t

/-- A batch row of ingest_estimate_invoice in scripts/ingest_data.py, after the
column rename and the missing-column fill; ingested_date is the stamped date. -/
structure EIRow where
  number : Option String
  full_name : Option String
  subtotal : Option String
  tax : Option String
  total : Option String
  date_issued : Option String
  date_created : Option String
  payment_received_less_refunds : Option String
  ingested_date : Option Nat
deriving DecidableEq, Repr

/-- The per-row effect of ingest_estimate_invoice: assign ingested_date and
clean the full_name column via clean_df_cols; no other column is transformed,
no row is dropped, and there is no referential check in this pipeline. -/
def eiTransform (d : Nat) (r : EIRow) : EIRow :=
  { r with ingested_date := some d, full_name := cleanCell r.full_name }

/-- ingest_estimate_invoice of scripts/ingest_data.py: stamp ingested_date,
clean full_name, and append every row of the batch to the target table. -/
def ingest_estimate_invoice (df : List EIRow) (d : Nat) (table : List EIRow) : List EIRow :=
  table ++ df.map (eiTransform d)

/-- The value of the DataFrame object the caller passed, after
ingest_estimate_invoice returns: df.rename(inplace=True), the ingested_date
column assignment and the column writes of clean_df_cols all mutate the object
shared with the caller, so the caller frame holds the transformed batch. -/
def callerFrameAfterClean (df : List EIRow) (d : Nat) : List EIRow :=
  df.map (eiTransform d)

/-- A client-export row as seen by ingest_clients_with_estimates after the
column rename. -/
structure ICWEClient where
  full_name : String
  email_address : Option String
  phone_mobile : Option String
  phone_other : Option String
  address : Option String
  address_2 : Option String
  city : Option String
  state_province : Option String
  zip_postal_code : Option String
  private_notes : Option String
  joist_client_id : Option Int
deriving DecidableEq, Repr

/-- An estimates row as used by ingest_clients_with_estimates. -/
structure ICWEEstimate where
  estimate_number : Option Int
  full_name : String
  date_created : Option Nat
deriving DecidableEq, Repr

/-- The full_name column of the client export. -/
def client_names (clients : List ICWEClient) : List String :=
  clients.map (fun c => c.full_name)

/-- set of estimate full_name values minus the names of the persisted clients
table. -/
def new_names (ests : List ICWEEstimate) (dbNames : List String) : List String :=
  (uniqueStrings (ests.map (fun e => e.full_name))).filter (fun n => decide (n ∉ dbNames))

/-- Python str.lower, mapping Char.toLower over the characters. -/
def pyLower (s : String) : String :=
  ⟨s.data.map Char.toLower⟩

/-- The case-mismatch check: new names whose lowercase form occurs among the
lowercased names of the persisted table and the export. -/
def mismatched_names (ests : List ICWEEstimate) (clients : List ICWEClient)
    (dbNames : List String) : List String :=
  (new_names ests dbNames).filter
    (fun n => decide (pyLower n ∈ (dbNames ++ client_names clients).map pyLower))

/-- New names absent from the export: the orphaned estimates report. -/
def orphaned_names (ests : List ICWEEstimate) (clients : List ICWEClient)
    (dbNames : List String) : List String :=
  (new_names ests dbNames).filter (fun n => decide (n ∉ client_names clients))

/-- New names present in the export: the only names selected for insertion. -/
def insert_names (ests : List ICWEEstimate) (clients : List ICWEClient)
    (dbNames : List String) : List String :=
  (new_names ests dbNames).filter (fun n => decide (n ∈ client_names clients))

/-- The estimate rows logged as orphaned. -/
def orphaned_estimates (ests : List ICWEEstimate) (clients : List ICWEClient)
    (dbNames : List String) : List ICWEEstimate :=
  ests.filter (fun e => decide (e.full_name ∈ orphaned_names ests clients dbNames))

/-- Option-valued running minimum, the accumulator of a SQL or pandas MIN. -/
def minOpt (acc : Option Nat) (x : Nat) : Option Nat :=
  match acc with
  | none => some x
  | some y => some (min x y)

/-- The groupby full_name minimum of date_created used for the join_date merge:
none when the name has no estimate row carrying a date. -/
def joinDateFor (ests : List ICWEEstimate) (n : String) : Option Nat :=
  ((ests.filter (fun e => e.full_name == n)).filterMap (fun e => e.date_created)).foldl
    minOpt none

/-- A client row as persisted by ingest_clients_with_estimates. -/
structure ClientInsertRow where
  full_name : String
  email_address : Option String
  phone_mobile : Option String
  phone_other : Option String
  address : Option String
  address_2 : Option String
  city : Option String
  state_province : Option String
  zip_postal_code : Option String
  private_notes : Option String
  joist_client_id : Option Int
  join_date : Option Nat
  ingested_date : Nat
deriving DecidableEq, Repr

/-- The persisted form of a selected export row: join_date from the estimates
merge, ingested_date from the ingestion date, and clean_df_cols applied to the
seven hand-picked string columns. -/
def mkInsertRow (ests : List ICWEEstimate) (d : Nat) (c : ICWEClient) : ClientInsertRow :=
  { full_name := clean_df_val c.full_name
    email_address := cleanCell c.email_address
    phone_mobile := c.phone_mobile
    phone_other := c.phone_other
    address := cleanCell c.address
    address_2 := cleanCell c.address_2
    city := cleanCell c.city
    state_province := cleanCell c.state_province
    zip_postal_code := c.zip_postal_code
    private_notes := cleanCell c.private_notes
    joist_client_id := c.joist_client_id
    join_date := joinDateFor ests c.full_name
    ingested_date := d }

/-- The export rows selected for insertion: full_name in insert_names. -/
def selectedClients (ests : List ICWEEstimate) (clients : List ICWEClient)
    (dbNames : List String) : List ICWEClient :=
  clients.filter (fun c => decide (c.full_name ∈ insert_names ests clients dbNames))

/-- The rows ingest_clients_with_estimates appends to the clients table. -/
def to_insert (ests : List ICWEEstimate) (clients : List ICWEClient)
    (dbNames : List String) (d : Nat) : List ClientInsertRow :=
  (selectedClients ests clients dbNames).map (mkInsertRow ests d)

/-- A client-export file row as read by ingest_clients_2 and all_ingestor; only
the Name and Joist Client ID columns drive the deduplication. -/
structure ExportRow where
  name : String
  joist_client_id : Int
deriving DecidableEq, Repr

/-- df_unique of ingest_clients_2: drop_duplicates on Name keeping the first
occurrence. -/
def df_unique (rows : List ExportRow) : List ExportRow :=
  dedupBy (fun r => r.name) rows

/-- How often a Name occurs in the batch. -/
def countName (rows : List ExportRow) (n : String) : Nat :=
  (rows.filter (fun r => r.name == n)).length

/-- df_dup of ingest_clients_2: Name.duplicated(keep=False), every row whose
Name occurs more than once, the first occurrence included. -/
def df_dup (rows : List ExportRow) : List ExportRow :=
  rows.filter (fun r => decide (2 ≤ countName rows r.name))

/-- The two client tables written by ingest_clients_2. -/
structure ClientsDb where
  clients : List ExportRow
  dup_name_clients : List ExportRow
deriving DecidableEq, Repr

/-- ingest_clients_2 of scripts/ingest.py: append the first occurrence of every
Name to clients and every row of a duplicated Name to dup_name_clients. -/
def ingest_clients_2 (db : ClientsDb) (rows : List ExportRow) : ClientsDb :=
  { clients := db.clients ++ df_unique rows
    dup_name_clients := db.dup_name_clients ++ df_dup rows }

/-- The sort relation of the all_ingestor dedup: descending Joist Client ID. -/
def geId (a b : ExportRow) : Prop :=
  b.joist_client_id ≤ a.joist_client_id

instance : DecidableRel geId :=
  fun a b => inferInstanceAs (Decidable (b.joist_client_id ≤ a.joist_client_id))

instance : IsTotal ExportRow geId :=
  ⟨fun a b => le_total b.joist_client_id a.joist_client_id⟩

instance : IsTrans ExportRow geId :=
  ⟨fun _ _ _ h h2 => le_trans h2 h⟩

/-- The all_ingestor client dedup: sort_values on Joist Client ID descending,
then drop_duplicates on Name keeping the first row. -/
def allIngestorDedup (rows : List ExportRow) : List ExportRow :=
  dedupBy (fun r => r.name) (List.insertionSort geId rows)

/-- A clients table row as touched by update_client_join_date; ingested_date is
ingested_time cast to a date. -/
structure DbClient where
  full_name : String
  ingested_date : Nat
  join_date : Option Nat
deriving DecidableEq, Repr

/-- An estimates table row as read by update_client_join_date. -/
structure DbEstimate where
  full_name : String
  date_issued : Option Nat
deriving DecidableEq, Repr

/-- The SQL scalar subquery MIN(date_issued) over the estimates of one
full_name: null dates are ignored and an empty set yields null. -/
def minDateIssued (es : List DbEstimate) (n : String) : Option Nat :=
  ((es.filter (fun e => e.full_name == n)).filterMap (fun e => e.date_issued)).foldl
    minOpt none

/-- update_client_join_date of scripts/transfrom.py: the UPDATE sets join_date
for exactly the clients whose ingestion date matches the parameter. -/
def update_client_join_date (d : Nat) (cs : List DbClient) (es : List DbEstimate) :
    List DbClient :=
  cs.map (fun c =>
    if c.ingested_date = d then { c with join_date := minDateIssued es c.full_name } else c)

/-! Helper lemmas about the embedded operations. -/

theorem mem_of_mem_dedupByAux {α : Type} (key : α → String) :
    ∀ (l : List α) (seen : List String) (a : α), a ∈ dedupByAux key seen l → a ∈ l := by
  intro l
  induction l with
  | nil => intro seen a h; simp [dedupByAux] at h
  | cons x t ih =>
    intro seen a h
    by_cases hx : key x ∈ seen
    · simp only [dedupByAux, if_pos hx] at h
      exact List.mem_cons_of_mem x (ih seen a h)
    · simp only [dedupByAux, if_neg hx] at h
      rcases List.mem_cons.mp h with h | h
      · subst h; exact List.mem_cons_self a t
      · exact List.mem_cons_of_mem x (ih (key x :: seen) a h)

theorem key_not_seen_of_mem_dedupByAux {α : Type} (key : α → String) :
    ∀ (l : List α) (seen : List String) (a : α), a ∈ dedupByAux key seen l → key a ∉ seen := by
  intro l
  induction l with
  | nil => intro seen a h; simp [dedupByAux] at h
  | cons x t ih =>
    intro seen a h
    by_cases hx : key x ∈ seen
    · simp only [dedupByAux, if_pos hx] at h
      exact ih seen a h
    · simp only [dedupByAux, if_neg hx] at h
      rcases List.mem_cons.mp h with h | h
      · subst h; exact hx
      · intro hs
        exact ih (key x :: seen) a h (List.mem_cons_of_mem _ hs)

theorem nodup_keys_dedupByAux {α : Type} (key : α → String) :
    ∀ (l : List α) (seen : List String), ((dedupByAux key seen l).map key).Nodup := by
  intro l
  induction l with
  | nil => intro seen; simp [dedupByAux]
  | cons x t ih =>
    intro seen
    by_cases hx : key x ∈ seen
    · simpa only [dedupByAux, if_pos hx] using ih seen
    · simp only [dedupByAux, if_neg hx, List.map_cons, List.nodup_cons]
      constructor
      · intro hmem
        rcases List.mem_map.mp hmem with ⟨a, ha, hk⟩
        exact key_not_seen_of_mem_dedupByAux key t (key x :: seen) a ha
          (hk ▸ List.mem_cons_self _ _)
      · exact ih (key x :: seen)

theorem find?_mem_dedupByAux {α : Type} (key : α → String) (k : String) :
    ∀ (l : List α) (seen : List String) (r : α), k ∉ seen →
      l.find? (fun a => key a == k) = some r → r ∈ dedupByAux key seen l := by
  intro l
  induction l with
  | nil => intro seen r _ h; simp at h
  | cons x t ih =>
    intro seen r hk h
    rw [List.find?_cons] at h
    cases hx : (key x == k) <;> simp only [hx] at h
    · by_cases hxs : key x ∈ seen
      · simp only [dedupByAux, if_pos hxs]
        exact ih seen r hk h
      · simp only [dedupByAux, if_neg hxs]
        refine List.mem_cons_of_mem x (ih (key x :: seen) r ?_ h)
        intro hmem
        rcases List.mem_cons.mp hmem with hkk | hkk
        · rw [hkk] at hx
          simp at hx
        · exact hk hkk
    · have hxk : key x = k := by simpa using hx
      have hxs : key x ∉ seen := by rw [hxk]; exact hk
      simp only [dedupByAux, if_neg hxs]
      have hrx : x = r := by injection h
      exact hrx ▸ List.mem_cons_self x _

theorem exists_key_dedupByAux {α : Type} (key : α → String) :
    ∀ (l : List α) (seen : List String) (a : α), a ∈ l →
      key a ∈ seen ∨ ∃ r ∈ dedupByAux key seen l, key r = key a := by
  intro l
  induction l with
  | nil => intro seen a h; simp at h
  | cons x t ih =>
    intro seen a h
    by_cases hx : key x ∈ seen
    · simp only [dedupByAux, if_pos hx]
      rcases List.mem_cons.mp h with h | h
      · subst h; exact Or.inl hx
      · exact ih seen a h
    · simp only [dedupByAux, if_neg hx]
      rcases List.mem_cons.mp h with h | h
      · subst h
        exact Or.inr ⟨a, List.mem_cons_self _ _, rfl⟩
      · rcases ih (key x :: seen) a h with hs | ⟨r, hr, hrk⟩
        · rcases List.mem_cons.mp hs with hs | hs
          · exact Or.inr ⟨x, List.mem_cons_self _ _, hs.symm⟩
          · exact Or.inl hs
        · exact Or.inr ⟨r, List.mem_cons_of_mem x hr, hrk⟩

theorem mem_uniqueStrings (l : List String) (a : String) :
    a ∈ uniqueStrings l ↔ a ∈ l := by
  constructor
  · exact fun h => mem_of_mem_dedupByAux (fun s => s) l [] a h
  · intro h
    rcases exists_key_dedupByAux (fun s => s) l [] a h with hs | ⟨r, hr, hrk⟩
    · simp at hs
    · exact hrk ▸ hr

theorem dedupByAux_sorted_ge :
    ∀ (l : List ExportRow) (seen : List String), l.Pairwise geId →
      ∀ r ∈ dedupByAux (fun x => x.name) seen l, ∀ b ∈ l, b.name = r.name →
        b.joist_client_id ≤ r.joist_client_id := by
  intro l
  induction l with
  | nil => intro seen _ r hr; simp [dedupByAux] at hr
  | cons x t ih =>
    intro seen hp r hr b hb hname
    have hhead : ∀ a ∈ t, geId x a := (List.pairwise_cons.mp hp).1
    have htail : t.Pairwise geId := (List.pairwise_cons.mp hp).2
    by_cases hx : x.name ∈ seen
    · simp only [dedupByAux, if_pos hx] at hr
      have hrseen : r.name ∉ seen :=
        key_not_seen_of_mem_dedupByAux (fun y => y.name) t seen r hr
      rcases List.mem_cons.mp hb with hbx | hbt
      · exfalso
        apply hrseen
        rw [← hname, hbx]
        exact hx
      · exact ih seen htail r hr b hbt hname
    · simp only [dedupByAux, if_neg hx] at hr
      rcases List.mem_cons.mp hr with hrx | hrt
      · subst hrx
        rcases List.mem_cons.mp hb with hbx | hbt
        · rw [hbx]
        · exact hhead b hbt
      · have hrname : r.name ∉ x.name :: seen :=
          key_not_seen_of_mem_dedupByAux (fun y => y.name) t (x.name :: seen) r hrt
        rcases List.mem_cons.mp hb with hbx | hbt
        · exfalso
          apply hrname
          rw [← hname, hbx]
          exact List.mem_cons_self _ _
        · exact ih (x.name :: seen) htail r hrt b hbt hname

theorem mem_pyStrip (s : String) (c : Char) : c ∈ (pyStrip s).data → c ∈ s.data := by
  intro h
  simp only [pyStrip, List.mem_reverse] at h
  have h2 := List.dropWhile_sublist (l := (s.data.dropWhile isPySpace).reverse) isPySpace
  have h3 := h2.mem h
  rw [List.mem_reverse] at h3
  exact (List.dropWhile_sublist isPySpace).mem h3

theorem head?_dropWhile_false {l : List Char} {c : Char}
    (h : (l.dropWhile isPySpace).head? = some c) : isPySpace c = false := by
  have := List.head?_dropWhile_not isPySpace l
  rw [h] at this
  exact this

theorem getLast?_dropWhile {p : Char → Bool} :
    ∀ (l : List Char) (c : Char), (l.dropWhile p).getLast? = some c → l.getLast? = some c := by
  intro l
  induction l with
  | nil => intro c h; simp at h
  | cons x t ih =>
    intro c h
    cases hx : p x
    · rwa [List.dropWhile_cons_of_neg (by simp [hx])] at h
    · rw [List.dropWhile_cons_of_pos (by simp [hx])] at h
      have ht := ih c h
      have htne : t ≠ [] := by
        intro he
        rw [he] at ht
        simp at ht
      rw [List.getLast?_cons, ht]
      cases t with
      | nil => exact absurd rfl htne
      | cons y u => simp [ht]

theorem getLast?_pyStrip (s : String) (c : Char) :
    (pyStrip s).data.getLast? = some c → isPySpace c = false := by
  intro h
  simp only [pyStrip, List.getLast?_reverse] at h
  exact head?_dropWhile_false h

theorem head?_pyStrip (s : String) (c : Char) :
    (pyStrip s).data.head? = some c → isPySpace c = false := by
  intro h
  simp only [pyStrip, List.head?_reverse] at h
  have h2 := getLast?_dropWhile _ c h
  rw [List.getLast?_reverse] at h2
  exact head?_dropWhile_false h2

theorem foldl_minOpt_some :
    ∀ (t : List Nat) (y : Nat), ∃ z, t.foldl minOpt (some y) = some z ∧
      (z = y ∨ z ∈ t) ∧ z ≤ y ∧ ∀ w ∈ t, z ≤ w := by
  intro t
  induction t with
  | nil => intro y; exact ⟨y, rfl, Or.inl rfl, le_refl y, by simp⟩
  | cons a t ih =>
    intro y
    rcases ih (min a y) with ⟨z, hz, hmem, hle, hall⟩
    refine ⟨z, ?_, ?_, ?_, ?_⟩
    · simpa [minOpt] using hz
    · rcases hmem with hz2 | hz2
      · rcases Nat.le_total a y with hay | hay
        · exact Or.inr (by rw [hz2, Nat.min_eq_left hay]; exact List.mem_cons_self a t)
        · exact Or.inl (by rw [hz2, Nat.min_eq_right hay])
      · exact Or.inr (List.mem_cons_of_mem a hz2)
    · exact le_trans hle (Nat.min_le_right a y)
    · intro w hw
      rcases List.mem_cons.mp hw with hw | hw
      · rw [hw]
        exact le_trans hle (Nat.min_le_left a y)
      · exact hall w hw

theorem foldl_minOpt_none_eq_nil :
    ∀ t : List Nat, t.foldl minOpt none = none ↔ t = [] := by
  intro t
  cases t with
  | nil => simp
  | cons a t =>
    simp only [List.foldl_cons, minOpt]
    rcases foldl_minOpt_some t a with ⟨z, hz, _⟩
    rw [hz]
    simp

theorem foldl_minOpt_none_spec :
    ∀ (t : List Nat) (x : Nat), t.foldl minOpt none = some x → x ∈ t ∧ ∀ w ∈ t, x ≤ w := by
  intro t x h
  cases t with
  | nil => simp at h
  | cons a t =>
    simp only [List.foldl_cons, minOpt] at h
    rcases foldl_minOpt_some t a with ⟨z, hz, hmem, hle, hall⟩
    rw [hz] at h
    have hzx : z = x := by injection h
    subst hzx
    constructor
    · rcases hmem with hz2 | hz2
      · exact hz2 ▸ List.mem_cons_self a t
      · exact List.mem_cons_of_mem a hz2
    · intro w hw
      rcases List.mem_cons.mp hw with hw | hw
      · exact hw ▸ hle
      · exact hall w hw

theorem list_map_eq_self_iff {α : Type} (f : α → α) :
    ∀ l : List α, l.map f = l ↔ ∀ a ∈ l, f a = a := by
  intro l
  induction l with
  | nil => simp
  | cons x t ih =>
    simp only [List.map_cons, List.cons.injEq, List.mem_cons]
    constructor
    · rintro ⟨hx, ht⟩
      intro a ha
      rcases ha with ha | ha
      · rw [ha]; exact hx
      · exact (ih.mp ht) a ha
    · intro h
      exact ⟨h x (Or.inl rfl), ih.mpr (fun a ha => h a (Or.inr ha))⟩

theorem forall₂_map_self {α β : Type} (f : α → β) (R : α → β → Prop)
    (h : ∀ a, R a (f a)) : ∀ l : List α, List.Forall₂ R l (l.map f) := by
  intro l
  induction l with
  | nil => simp [List.Forall₂.nil]
  | cons x t ih => exact List.Forall₂.cons (h x) ih

theorem mem_new_names (ests : List ICWEEstimate) (dbNames : List String) (n : String) :
    n ∈ new_names ests dbNames ↔ (∃ e ∈ ests, e.full_name = n) ∧ n ∉ dbNames := by
  constructor
  · intro h
    rcases List.mem_filter.mp h with ⟨h1, h2⟩
    rw [mem_uniqueStrings] at h1
    rcases List.mem_map.mp h1 with ⟨e, he, hn⟩
    exact ⟨⟨e, he, hn⟩, of_decide_eq_true h2⟩
  · rintro ⟨⟨e, he, hn⟩, hdb⟩
    refine List.mem_filter.mpr ⟨?_, decide_eq_true hdb⟩
    rw [mem_uniqueStrings]
    exact List.mem_map.mpr ⟨e, he, hn⟩

theorem mem_orphaned_names (ests : List ICWEEstimate) (clients : List ICWEClient)
    (dbNames : List String) (n : String) :
    n ∈ orphaned_names ests clients dbNames ↔
      (∃ e ∈ ests, e.full_name = n) ∧ n ∉ dbNames ∧ n ∉ client_names clients := by
  unfold orphaned_names
  rw [List.mem_filter, mem_new_names]
  constructor
  · rintro ⟨⟨h1, h2⟩, h3⟩
    exact ⟨h1, h2, of_decide_eq_true h3⟩
  · rintro ⟨h1, h2, h3⟩
    exact ⟨⟨h1, h2⟩, decide_eq_true h3⟩

theorem mem_insert_names (ests : List ICWEEstimate) (clients : List ICWEClient)
    (dbNames : List String) (n : String) :
    n ∈ insert_names ests clients dbNames ↔
      (∃ e ∈ ests, e.full_name = n) ∧ n ∉ dbNames ∧ n ∈ client_names clients := by
  unfold insert_names
  rw [List.mem_filter, mem_new_names]
  constructor
  · rintro ⟨⟨h1, h2⟩, h3⟩
    exact ⟨h1, h2, of_decide_eq_true h3⟩
  · rintro ⟨h1, h2, h3⟩
    exact ⟨⟨h1, h2⟩, decide_eq_true h3⟩

theorem mem_selected_names (ests : List ICWEEstimate) (clients : List ICWEClient)
    (dbNames : List String) (n : String) :
    n ∈ (selectedClients ests clients dbNames).map (fun c => c.full_name) ↔
      (∃ e ∈ ests, e.full_name = n) ∧ n ∉ dbNames ∧ n ∈ client_names clients := by
  constructor
  · intro h
    rcases List.mem_map.mp h with ⟨c, hc, hn⟩
    rcases List.mem_filter.mp hc with ⟨hcm, hsel⟩
    have hins := of_decide_eq_true hsel
    rw [hn] at hins
    exact (mem_insert_names ests clients dbNames n).mp hins
  · intro h
    rcases h with ⟨h1, h2, h3⟩
    rcases List.mem_map.mp h3 with ⟨c, hc, hn⟩
    refine List.mem_map.mpr ⟨c, ?_, hn⟩
    refine List.mem_filter.mpr ⟨hc, decide_eq_true ?_⟩
    rw [hn]
    exact (mem_insert_names ests clients dbNames n).mpr ⟨h1, h2, ⟨c, hc, hn⟩ |> fun hh => List.mem_map.mpr hh⟩

theorem mem_dup_route (db : ClientsDb) (rows : List ExportRow) (r : ExportRow)
    (hr : r ∈ rows) (hc : 2 ≤ countName rows r.name) :
    r ∈ (ingest_clients_2 db rows).dup_name_clients := by
  simp only [ingest_clients_2, List.mem_append]
  right
  exact List.mem_filter.mpr ⟨hr, decide_eq_true hc⟩

theorem minDateIssued_eq_none (es : List DbEstimate) (n : String)
    (h : ∀ e ∈ es, e.full_name ≠ n) : minDateIssued es n = none := by
  have hfil : es.filter (fun e => e.full_name == n) = [] := by
    rw [List.filter_eq_nil_iff]
    intro e he
    simp [h e he]
  unfold minDateIssued
  rw [hfil]
  rfl

theorem minDateIssued_spec (es : List DbEstimate) (n : String) (x : Nat)
    (h : minDateIssued es n = some x) :
    (∃ e ∈ es, e.full_name = n ∧ e.date_issued = some x) ∧
      ∀ e ∈ es, e.full_name = n → ∀ y, e.date_issued = some y → x ≤ y := by
  unfold minDateIssued at h
  rcases foldl_minOpt_none_spec _ x h with ⟨hmem, hall⟩
  constructor
  · rcases List.mem_filterMap.mp hmem with ⟨e, he, hd⟩
    rcases List.mem_filter.mp he with ⟨he2, hbe⟩
    exact ⟨e, he2, by simpa using hbe, hd⟩
  · intro e he hn y hy
    apply hall
    exact List.mem_filterMap.mpr ⟨e, List.mem_filter.mpr ⟨he, by simp [hn]⟩, hy⟩

theorem eiTransform_eq_self_iff (d : Nat) (r : EIRow) :
    eiTransform d r = r ↔ (cleanCell r.full_name = r.full_name ∧ r.ingested_date = some d) := by
  cases r with
  | mk nu f sb tx tt di dc pm ig =>
    simp only [eiTransform, EIRow.mk.injEq, true_and, and_true]
    constructor
    · rintro ⟨h1, h2⟩
      exact ⟨h1, h2.symm⟩
    · rintro ⟨h1, h2⟩
      exact ⟨h1, h2.symm⟩

/-! Claim theorems. -/

/-- C7: for every input string containing a disallowed character (null byte,
newline, carriage return, tab, single quote, double quote, backslash, percent,
underscore, semicolon), the Record Cleaner output contains none of these
characters, and the result carries no leading or trailing whitespace. -/
theorem disallowed_character_removal (s : String)
    (h : ∃ c ∈ s.data, isBadChar c = true) :
    (∀ c ∈ (clean_df_val s).data, isBadChar c = false)
    ∧ (∀ c, (clean_df_val s).data.head? = some c → isPySpace c = false)
    ∧ (∀ c, (clean_df_val s).data.getLast? = some c → isPySpace c = false) := by
  refine ⟨?_, ?_, ?_⟩
  · intro c hc
    have hc2 := mem_pyStrip _ c hc
    rcases List.mem_map.mp hc2 with ⟨a, _, ha⟩
    by_cases hb : isBadChar a = true
    · rw [if_pos hb] at ha
      rw [← ha]
      decide
    · rw [if_neg hb] at ha
      rw [← ha]
      simpa using hb
  · intro c hc
    exact head?_pyStrip _ c hc
  · intro c hc
    exact getLast?_pyStrip _ c hc

/-- Witness for C7 at the concrete input a_b; containing an underscore and a
semicolon. -/
theorem disallowed_character_removal_witness :
    (∃ c ∈ ("a_b;".data), isBadChar c = true)
    ∧ (∀ c ∈ (clean_df_val "a_b;").data, isBadChar c = false) :=
  ⟨by decide, (disallowed_character_removal "a_b;" (by decide)).1⟩

/-- C6: when the cleaned estimates or invoices batch carries full_name values
absent from the clients table, ingest_est_inv raises carrying exactly the
offending names and leaves every table unchanged; membership in the raised
list characterises exactly the unresolvable names of the batch. -/
theorem referential_invalid_name_error (invoicesTable : Bool) (rows : List EstRow)
    (s : IngestState) (now : Nat)
    (h : invalidNames (cleanedBatch invoicesTable now rows) s.clients ≠ []) :
    ingest_est_inv invoicesTable rows s now =
      Except.error (invalidNames (cleanedBatch invoicesTable now rows) s.clients)
    ∧ stateAfter invoicesTable rows s now = s
    ∧ ∀ n, n ∈ invalidNames (cleanedBatch invoicesTable now rows) s.clients ↔
        ((∃ r ∈ cleanedBatch invoicesTable now rows, r.full_name = some n) ∧ n ∉ s.clients) := by
  have hccd : clean_dataframe invoicesTable rows s.clients now =
      Except.error (invalidNames (cleanedBatch invoicesTable now rows) s.clients) := by
    unfold clean_dataframe
    rw [if_neg]
    intro hem
    exact h (List.isEmpty_iff.mp hem)
  refine ⟨?_, ?_, ?_⟩
  · unfold ingest_est_inv
    rw [hccd]
  · unfold stateAfter ingest_est_inv
    rw [hccd]
  · intro n
    unfold invalidNames
    rw [mem_uniqueStrings, List.mem_filter]
    constructor
    · rintro ⟨h1, h2⟩
      rcases List.mem_filterMap.mp h1 with ⟨r, hr, hn⟩
      exact ⟨⟨r, hr, hn⟩, of_decide_eq_true h2⟩
    · rintro ⟨⟨r, hr, hn⟩, h2⟩
      exact ⟨List.mem_filterMap.mpr ⟨r, hr, hn⟩, decide_eq_true h2⟩

/-- Witness for C6: a batch referencing Jane Doe against an empty clients
table aborts and persists nothing. -/
theorem referential_invalid_name_error_witness :
    stateAfter false
      [⟨some "101", some "Jane Doe", none, none, some "150.00", none, none, none⟩]
      ⟨[], [], []⟩ 7 = ⟨[], [], []⟩ :=
  (referential_invalid_name_error false
    [⟨some "101", some "Jane Doe", none, none, some "150.00", none, none, none⟩]
    ⟨[], [], []⟩ 7 (by decide)).2.1

/-- C1 counterexample: a batch referencing Jane Doe against an empty clients
table does not synthesise any minimal client record; the pipeline raises
instead, and after the call the clients table still has no row at all, so no
row with full_name Jane Doe exists. -/
theorem missing_name_backfill_counterexample :
    ingest_est_inv false
      [⟨some "101", some "Jane Doe", none, none, some "150.00", none, none, none⟩]
      ⟨[], [], []⟩ 7 = Except.error ["Jane Doe"]
    ∧ (stateAfter false
        [⟨some "101", some "Jane Doe", none, none, some "150.00", none, none, none⟩]
        ⟨[], [], []⟩ 7).clients = []
    ∧ (stateAfter false
        [⟨some "101", some "Jane Doe", none, none, some "150.00", none, none, none⟩]
        ⟨[], [], []⟩ 7).estimates = [] :=
  ⟨rfl, rfl, rfl⟩

/-- C1 amended: no minimal client record is ever synthesised. The
clean_dataframe ingestion path never writes the clients table (missing names
raise instead), and every client row persisted by
ingest_clients_with_estimates is the transformed copy of a client-export row
whose name is in the insert set, not a synthesised minimal record. -/
theorem missing_name_no_minimal_backfill :
    (∀ (invoicesTable : Bool) (rows : List EstRow) (s : IngestState) (now : Nat)
        (t : IngestState),
        ingest_est_inv invoicesTable rows s now = Except.ok t → t.clients = s.clients)
    ∧ (∀ (invoicesTable : Bool) (rows : List EstRow) (s : IngestState) (now : Nat),
        (stateAfter invoicesTable rows s now).clients = s.clients)
    ∧ (∀ (ests : List ICWEEstimate) (clients : List ICWEClient) (dbNames : List String)
        (d : Nat) (r : ClientInsertRow), r ∈ to_insert ests clients dbNames d →
          ∃ c ∈ clients, r = mkInsertRow ests d c ∧
            c.full_name ∈ insert_names ests clients dbNames) := by
  have h1 : ∀ (invoicesTable : Bool) (rows : List EstRow) (s : IngestState) (now : Nat)
      (t : IngestState),
      ingest_est_inv invoicesTable rows s now = Except.ok t → t.clients = s.clients := by
    intro inv rows s now t h
    unfold ingest_est_inv at h
    cases hcd : clean_dataframe inv rows s.clients now <;> rw [hcd] at h
    · exact absurd h (by simp)
    · injection h with h2
      rw [← h2]
  refine ⟨h1, ?_, ?_⟩
  · intro inv rows s now
    unfold stateAfter
    cases hie : ingest_est_inv inv rows s now with
    | error e => rfl
    | ok t => exact h1 inv rows s now t hie
  · intro ests clients dbNames d r h
    unfold to_insert at h
    rcases List.mem_map.mp h with ⟨c, hc, hr⟩
    rcases List.mem_filter.mp hc with ⟨hcm, hsel⟩
    exact ⟨c, hcm, hr.symm, of_decide_eq_true hsel⟩

/-- Witness for C1 amended: a successful empty run keeps the clients table,
and a concrete inserted row is the copy of its export row. -/
theorem missing_name_no_minimal_backfill_witness :
    (⟨["Ann"], [], []⟩ : IngestState).clients = ["Ann"]
    ∧ ∃ c ∈ [(⟨"Ann", none, none, none, none, none, none, none, none, none, none⟩ : ICWEClient)],
        (⟨"Ann", none, none, none, none, none, none, none, none, none, none, none, 3⟩ :
          ClientInsertRow) = mkInsertRow [⟨some 1, "Ann", none⟩] 3 c ∧
        c.full_name ∈ insert_names [⟨some 1, "Ann", none⟩]
          [⟨"Ann", none, none, none, none, none, none, none, none, none, none⟩] [] :=
  ⟨missing_name_no_minimal_backfill.1 false [] ⟨["Ann"], [], []⟩ 0 ⟨["Ann"], [], []⟩ rfl,
    missing_name_no_minimal_backfill.2.2
      [⟨some 1, "Ann", none⟩]
      [⟨"Ann", none, none, none, none, none, none, none, none, none, none⟩] [] 3
      ⟨"Ann", none, none, none, none, none, none, none, none, none, none, none, 3⟩
      (by decide)⟩

/-- C2: in ingest_clients_with_estimates, the orphaned names are exactly the
estimate names absent from both the persisted table and the export, they get
no client row, every orphaned estimate row is reported, and the names selected
for insertion are exactly those in the new-estimate set and the export but not
in the persisted table. -/
theorem orphaned_estimate_characterization :
    ∀ (ests : List ICWEEstimate) (clients : List ICWEClient) (dbNames : List String),
      (∀ n, n ∈ orphaned_names ests clients dbNames ↔
          ((∃ e ∈ ests, e.full_name = n) ∧ n ∉ dbNames ∧ n ∉ client_names clients))
      ∧ (∀ n, n ∈ (selectedClients ests clients dbNames).map (fun c => c.full_name) ↔
          ((∃ e ∈ ests, e.full_name = n) ∧ n ∉ dbNames ∧ n ∈ client_names clients))
      ∧ (∀ n, n ∈ orphaned_names ests clients dbNames →
          n ∉ (selectedClients ests clients dbNames).map (fun c => c.full_name))
      ∧ (∀ e ∈ ests, e.full_name ∈ orphaned_names ests clients dbNames →
          e ∈ orphaned_estimates ests clients dbNames) := by
  intro ests clients dbNames
  refine ⟨mem_orphaned_names ests clients dbNames,
    mem_selected_names ests clients dbNames, ?_, ?_⟩
  · intro n ho hs
    have h1 := (mem_orphaned_names ests clients dbNames n).mp ho
    have h2 := (mem_selected_names ests clients dbNames n).mp hs
    exact h1.2.2 h2.2.2
  · intro e he ho
    exact List.mem_filter.mpr ⟨he, decide_eq_true ho⟩

/-- Witness for C2 at a concrete orphan: name Bob referenced by an estimate,
absent from the persisted table and the export. -/
theorem orphaned_estimate_characterization_witness :
    (∃ e ∈ [(⟨some 1, "Bob", none⟩ : ICWEEstimate)], e.full_name = "Bob")
    ∧ "Bob" ∉ ([] : List String) ∧ "Bob" ∉ client_names [] :=
  ((orphaned_estimate_characterization [⟨some 1, "Bob", none⟩] [] []).1 "Bob").mp (by decide)

/-- C10: the case-insensitive collision check flags an incoming name exactly
when it is a new name whose lowercase form equals the lowercase form of some
name of the persisted table or of the export. -/
theorem case_insensitive_collision_flag :
    ∀ (ests : List ICWEEstimate) (clients : List ICWEClient) (dbNames : List String)
      (n : String),
      n ∈ mismatched_names ests clients dbNames ↔
        (n ∈ new_names ests dbNames ∧
          ∃ m, (m ∈ dbNames ∨ m ∈ client_names clients) ∧ pyLower m = pyLower n) := by
  intro ests clients dbNames n
  unfold mismatched_names
  rw [List.mem_filter]
  constructor
  · rintro ⟨h1, h2⟩
    have h3 := of_decide_eq_true h2
    rcases List.mem_map.mp h3 with ⟨m, hm, hml⟩
    exact ⟨h1, m, List.mem_append.mp hm, hml⟩
  · rintro ⟨h1, m, hm, hml⟩
    refine ⟨h1, decide_eq_true ?_⟩
    exact List.mem_map.mpr ⟨m, List.mem_append.mpr hm, hml⟩

/-- Witness for C10: the new name jane doe collides with the persisted name
Jane Doe up to casing and is flagged. -/
theorem case_insensitive_collision_flag_witness :
    "jane doe" ∈ mismatched_names [⟨some 1, "jane doe", none⟩] [] ["Jane Doe"] :=
  (case_insensitive_collision_flag [⟨some 1, "jane doe", none⟩] [] ["Jane Doe"]
    "jane doe").mpr ⟨by decide, "Jane Doe", Or.inl (by decide), by decide⟩

/-- C3 counterexample: in ingest_clients_2, on an export holding the same name
with external ids 5 and then 9, the canonical row placed in clients is the
id 5 row (the first occurrence in file order), not the id 9 row. -/
theorem dedup_tie_break_counterexample :
    (ingest_clients_2 ⟨[], []⟩ [⟨"Jane Doe", 5⟩, ⟨"Jane Doe", 9⟩]).clients
      = [⟨"Jane Doe", 5⟩]
    ∧ (⟨"Jane Doe", 9⟩ : ExportRow) ∉
        (ingest_clients_2 ⟨[], []⟩ [⟨"Jane Doe", 5⟩, ⟨"Jane Doe", 9⟩]).clients := by
  exact ⟨rfl, by decide⟩

/-- C3 amended: in the all_ingestor pipeline the retained row per name carries
the maximal Joist Client ID and every name keeps a representative, while the
discarded duplicates go nowhere; in ingest_clients_2 the first occurrence in
file order is the row placed in clients and every colliding row, the retained
one included, is routed to dup_name_clients. -/
theorem dedup_tie_break_amended :
    (∀ (rows : List ExportRow), ∀ r ∈ allIngestorDedup rows, ∀ b ∈ rows,
        b.name = r.name → b.joist_client_id ≤ r.joist_client_id)
    ∧ (∀ (rows : List ExportRow), ∀ b ∈ rows, ∃ r ∈ allIngestorDedup rows, r.name = b.name)
    ∧ (∀ (db : ClientsDb) (rows : List ExportRow) (n : String) (r : ExportRow),
        rows.find? (fun a => a.name == n) = some r → r ∈ (ingest_clients_2 db rows).clients)
    ∧ (∀ (db : ClientsDb) (rows : List ExportRow) (r : ExportRow),
        r ∈ rows → 2 ≤ countName rows r.name →
          r ∈ (ingest_clients_2 db rows).dup_name_clients) := by
  refine ⟨?_, ?_, ?_, ?_⟩
  · intro rows r hr b hb hname
    have hsorted : (List.insertionSort geId rows).Pairwise geId :=
      List.sorted_insertionSort geId rows
    have hb2 : b ∈ List.insertionSort geId rows :=
      (List.perm_insertionSort geId rows).mem_iff.mpr hb
    exact dedupByAux_sorted_ge _ [] hsorted r hr b hb2 hname
  · intro rows b hb
    have hb2 : b ∈ List.insertionSort geId rows :=
      (List.perm_insertionSort geId rows).mem_iff.mpr hb
    rcases exists_key_dedupByAux (fun x => x.name) _ [] b hb2 with hs | ⟨r, hr, hrk⟩
    · simp at hs
    · exact ⟨r, hr, hrk⟩
  · intro db rows n r h
    have hm := find?_mem_dedupByAux (fun a => a.name) n rows [] r (by simp) h
    exact List.mem_append.mpr (Or.inr hm)
  · exact mem_dup_route

/-- Witness for C3 amended at the spec example ids 5 and 9: the id 9 row
dominates in the all_ingestor dedup and the id 5 row lands in dup_name_clients
in ingest_clients_2. -/
theorem dedup_tie_break_amended_witness :
    (⟨"Jane Doe", 5⟩ : ExportRow).joist_client_id ≤
      (⟨"Jane Doe", 9⟩ : ExportRow).joist_client_id
    ∧ (⟨"Jane Doe", 5⟩ : ExportRow) ∈
        (ingest_clients_2 ⟨[], []⟩ [⟨"Jane Doe", 5⟩, ⟨"Jane Doe", 9⟩]).dup_name_clients :=
  ⟨dedup_tie_break_amended.1 [⟨"Jane Doe", 5⟩, ⟨"Jane Doe", 9⟩] ⟨"Jane Doe", 9⟩ (by decide)
      ⟨"Jane Doe", 5⟩ (by decide) rfl,
    dedup_tie_break_amended.2.2.2 ⟨[], []⟩ [⟨"Jane Doe", 5⟩, ⟨"Jane Doe", 9⟩]
      ⟨"Jane Doe", 5⟩ (by decide) (by decide)⟩

/-- C4 counterexample: the id 5 row collides with another row of the batch yet
is placed in the primary clients table, so colliding rows are not diverted
away from the primary table. -/
theorem client_name_invariant_counterexample :
    2 ≤ countName [⟨"Jane Doe", 5⟩, ⟨"Jane Doe", 9⟩] "Jane Doe"
    ∧ (⟨"Jane Doe", 5⟩ : ExportRow) ∈
        (ingest_clients_2 ⟨[], []⟩ [⟨"Jane Doe", 5⟩, ⟨"Jane Doe", 9⟩]).clients := by
  exact ⟨by decide, by decide⟩

/-- C4 amended: after ingesting a client file into an empty clients table the
table holds at most one row per distinct full_name, and every colliding row is
copied to dup_name_clients; the first occurrence of a duplicated name is
nevertheless also placed in the primary clients table. -/
theorem client_name_invariant_amended :
    (∀ rows : List ExportRow,
        (((ingest_clients_2 ⟨[], []⟩ rows).clients).map (fun r => r.name)).Nodup)
    ∧ (∀ (db : ClientsDb) (rows : List ExportRow) (r : ExportRow),
        r ∈ rows → 2 ≤ countName rows r.name →
          r ∈ (ingest_clients_2 db rows).dup_name_clients)
    ∧ (∀ (rows : List ExportRow) (n : String) (r : ExportRow),
        rows.find? (fun a => a.name == n) = some r → 2 ≤ countName rows n →
          r ∈ (ingest_clients_2 ⟨[], []⟩ rows).clients
          ∧ r ∈ (ingest_clients_2 ⟨[], []⟩ rows).dup_name_clients) := by
  refine ⟨?_, mem_dup_route, ?_⟩
  · intro rows
    show ((([] : List ExportRow) ++ df_unique rows).map (fun r => r.name)).Nodup
    rw [List.nil_append]
    exact nodup_keys_dedupByAux (fun r => r.name) rows []
  · intro rows n r hf hcount
    have hmem : r ∈ df_unique rows := by
      unfold df_unique dedupBy
      exact find?_mem_dedupByAux (fun a => a.name) n rows [] r (List.not_mem_nil n) hf
    have hrn : r.name = n := by simpa using List.find?_some hf
    have hrr : r ∈ rows := List.mem_of_find?_eq_some hf
    exact ⟨List.mem_append.mpr (Or.inr hmem),
      mem_dup_route ⟨[], []⟩ rows r hrr (by rwa [hrn])⟩

/-- Witness for C4 amended at the two-row batch: the first occurrence sits in
both tables. -/
theorem client_name_invariant_amended_witness :
    (⟨"Jane Doe", 5⟩ : ExportRow) ∈
      (ingest_clients_2 ⟨[], []⟩ [⟨"Jane Doe", 5⟩, ⟨"Jane Doe", 9⟩]).clients
    ∧ (⟨"Jane Doe", 5⟩ : ExportRow) ∈
      (ingest_clients_2 ⟨[], []⟩ [⟨"Jane Doe", 5⟩, ⟨"Jane Doe", 9⟩]).dup_name_clients :=
  client_name_invariant_amended.2.2 [⟨"Jane Doe", 5⟩, ⟨"Jane Doe", 9⟩] "Jane Doe"
    ⟨"Jane Doe", 5⟩ (by decide) (by decide)

/-- C5 counterexample: in ingest_estimate_invoice a batch row with a null
full_name is persisted unchanged rather than dropped, so a null-name row does
appear in the persisted output. -/
theorem null_name_drop_counterexample :
    ingest_estimate_invoice
      [⟨some "7", none, none, none, none, none, none, none, none⟩] 3 []
      = [⟨some "7", none, none, none, none, none, none, none, some 3⟩]
    ∧ (⟨some "7", none, none, none, none, none, none, none, some 3⟩ : EIRow).full_name
        = none :=
  ⟨rfl, rfl⟩

/-- C5 amended: in the clean_dataframe path only rows with a missing required
field are dropped; cleaning never turns a present string into a missing value,
so an empty or whitespace-only full_name survives the drop step; and
ingest_estimate_invoice drops nothing, persisting every row of the batch. -/
theorem null_name_drop_amended :
    (∀ (rows : List EstRow), ∀ r ∈ dropnaRequired rows,
        r.number.isSome = true ∧ r.full_name.isSome = true)
    ∧ (∀ s : String, (clean_string (some s)).isSome = true)
    ∧ (∀ (rows : List EstRow) (r : EstRow), r ∈ rows →
        (cleanStringRow r).number.isSome = true →
        (cleanStringRow r).full_name.isSome = true →
          cleanStringRow r ∈ dropnaRequired (rows.map cleanStringRow))
    ∧ (∀ (df : List EIRow) (d : Nat) (table : List EIRow),
        (ingest_estimate_invoice df d table).length = table.length + df.length) := by
  refine ⟨?_, ?_, ?_, ?_⟩
  · intro rows r hr
    rcases List.mem_filter.mp hr with ⟨_, h2⟩
    exact ⟨(Bool.and_eq_true_iff.mp h2).1, (Bool.and_eq_true_iff.mp h2).2⟩
  · intro s
    rfl
  · intro rows r hr h1 h2
    refine List.mem_filter.mpr ⟨List.mem_map.mpr ⟨r, hr, rfl⟩, ?_⟩
    rw [Bool.and_eq_true]
    exact ⟨h1, h2⟩
  · intro df d table
    simp [ingest_estimate_invoice]

/-- Witness for C5 amended: a whitespace-only full_name cleans to the empty
string, which is present, so the row survives the drop step. -/
theorem null_name_drop_amended_witness :
    cleanStringRow ⟨some "7", some "   ", none, none, none, none, none, none⟩ ∈
      dropnaRequired
        ([⟨some "7", some "   ", none, none, none, none, none, none⟩].map cleanStringRow) :=
  null_name_drop_amended.2.2.1 [⟨some "7", some "   ", none, none, none, none, none, none⟩]
    ⟨some "7", some "   ", none, none, none, none, none, none⟩
    (by decide) (by decide) (by decide)

/-- C9 counterexample: the Record Cleaner is not pure with respect to its
input; after the call the caller frame differs from the original batch. -/
theorem record_cleaner_purity_counterexample :
    callerFrameAfterClean
      [⟨some "1", some "a_b", none, none, none, none, none, none, none⟩] 0
      ≠ [⟨some "1", some "a_b", none, none, none, none, none, none, none⟩] := by
  decide

/-- C9 amended: the cleaner transforms the caller batch in place. After the
call the caller frame is exactly the persisted batch; only the full_name
column and the stamped ingested_date change, every other column of every row
is untouched; and the caller frame equals the original iff every full_name
cell was already clean and ingested_date already stamped. -/
theorem record_cleaner_in_place_amended :
    (∀ (df : List EIRow) (d : Nat),
        List.Forall₂ (fun r r2 =>
          r2.number = r.number ∧ r2.subtotal = r.subtotal ∧ r2.tax = r.tax ∧
          r2.total = r.total ∧ r2.date_issued = r.date_issued ∧
          r2.date_created = r.date_created ∧
          r2.payment_received_less_refunds = r.payment_received_less_refunds ∧
          r2.full_name = cleanCell r.full_name ∧ r2.ingested_date = some d)
        df (callerFrameAfterClean df d))
    ∧ (∀ (df : List EIRow) (d : Nat) (table : List EIRow),
        ingest_estimate_invoice df d table = table ++ callerFrameAfterClean df d)
    ∧ (∀ (df : List EIRow) (d : Nat),
        callerFrameAfterClean df d = df ↔
          ∀ r ∈ df, cleanCell r.full_name = r.full_name ∧ r.ingested_date = some d) := by
  refine ⟨?_, ?_, ?_⟩
  · intro df d
    unfold callerFrameAfterClean
    apply forall₂_map_self
    intro r
    exact ⟨rfl, rfl, rfl, rfl, rfl, rfl, rfl, rfl, rfl⟩
  · intro df d table
    rfl
  · intro df d
    unfold callerFrameAfterClean
    rw [list_map_eq_self_iff]
    constructor
    · intro h r hr
      exact (eiTransform_eq_self_iff d r).mp (h r hr)
    · intro h r hr
      exact (eiTransform_eq_self_iff d r).mpr (h r hr)

/-- Witness for C9 amended: a batch whose full_name is already clean and whose
ingested_date is already stamped is a fixed point of the cleaner. -/
theorem record_cleaner_in_place_amended_witness :
    callerFrameAfterClean
      [⟨some "1", some "ok", none, none, none, none, none, none, some 4⟩] 4
      = [⟨some "1", some "ok", none, none, none, none, none, none, some 4⟩] :=
  (record_cleaner_in_place_amended.2.2
    [⟨some "1", some "ok", none, none, none, none, none, none, some 4⟩] 4).mpr
    (by decide)

/-- C8: the join_date backfill maps each client row to itself when its
ingestion date differs from the given date, and otherwise replaces join_date
by the minimum issued date of the estimates sharing the full_name; that
minimum is null when the client has no associated estimate, and when present
it is the date of an associated estimate below every other associated date. -/
theorem join_date_backfill (d : Nat) (cs : List DbClient) (es : List DbEstimate) :
    List.Forall₂ (fun c c2 =>
        c2.full_name = c.full_name ∧ c2.ingested_date = c.ingested_date ∧
        (c.ingested_date ≠ d → c2 = c) ∧
        (c.ingested_date = d → c2.join_date = minDateIssued es c.full_name))
      cs (update_client_join_date d cs es)
    ∧ (∀ n, (∀ e ∈ es, e.full_name ≠ n) → minDateIssued es n = none)
    ∧ (∀ n x, minDateIssued es n = some x →
        (∃ e ∈ es, e.full_name = n ∧ e.date_issued = some x)
        ∧ ∀ e ∈ es, e.full_name = n → ∀ y, e.date_issued = some y → x ≤ y) := by
  refine ⟨?_, minDateIssued_eq_none es, minDateIssued_spec es⟩
  unfold update_client_join_date
  apply forall₂_map_self
  intro c
  by_cases hc : c.ingested_date = d
  · rw [if_pos hc]
    exact ⟨rfl, rfl, fun hne => absurd hc hne, fun _ => rfl⟩
  · rw [if_neg hc]
    exact ⟨rfl, rfl, fun _ => rfl, fun h => absurd h hc⟩

/-- Witness for C8: with two Jane estimates issued on days 7 and 3, the
backfill on the matching ingestion date writes day 3, and the minimum is
realised by an actual estimate row. -/
theorem join_date_backfill_witness :
    (∃ e ∈ [(⟨"Jane", some 7⟩ : DbEstimate), ⟨"Jane", some 3⟩],
        e.full_name = "Jane" ∧ e.date_issued = some 3)
    ∧ update_client_join_date 5 [⟨"Jane", 5, none⟩, ⟨"Bob", 4, some 9⟩]
        [⟨"Jane", some 7⟩, ⟨"Jane", some 3⟩]
        = [⟨"Jane", 5, some 3⟩, ⟨"Bob", 4, some 9⟩] :=
  ⟨((join_date_backfill 5 [] [⟨"Jane", some 7⟩, ⟨"Jane", some 3⟩]).2.2 "Jane" 3
      (by decide)).1,
    by decide⟩

end Crm
